import Mathlib

/-!
Verification of the poleshift splashscreen resource pipeline
(`src-tauri/src/splashscreen/mod.rs`).

The development shallowly embeds `download_resources` and its helper
`sha256_of_file_with_progress`.  Files are byte lists, the filesystem is an
association list from path strings to contents, the HTTP response and the
gzip decoder are environment parameters, and the SHA-256 compression itself
is an abstract function `sha : Bytes -> Bytes` carried by the environment
(the pipeline only compares hex-encoded digests for equality, so every
theorem below holds for the real hash function as an instance).

Each per-resource task additionally records a trace of primitive filesystem
operations (`FsOp`) and the progress events it emitted, which is what the
atomic-commit and progress claims are stated over.
-/

set_option maxHeartbeats 1000000

abbrev Bytes := List Nat

/-- The filesystem: an association list from paths to file contents. -/
abbrev FS := List (String × Bytes)

/-- Read a file; `none` models a missing file. -/
def FS.read : FS → String → Option Bytes
  | [], _ => none
  | (q, b) :: rest, p => if p = q then some b else FS.read rest p

/-- `Path::exists`. -/
def FS.has (fs : FS) (p : String) : Bool :=
  (FS.read fs p).isSome

/-- `fs::remove_file` (also used to drop an overwritten rename target). -/
def FS.remove : FS → String → FS
  | [], _ => []
  | (q, b) :: rest, p =>
    if p = q then FS.remove rest p else (q, b) :: FS.remove rest p

/-- Create or overwrite a file with the given contents. -/
def FS.write (fs : FS) (p : String) (b : Bytes) : FS :=
  (p, b) :: FS.remove fs p

/-- Mirror of the `ResourceFiles` struct. -/
structure Resource where
  file_name : String
  file_url : String
  file_path : String
  checksum_compressed : String
  checksum_decompressed : String
  compressed : Bool
deriving DecidableEq, Repr

/-- The three progress payloads emitted by the pipeline. -/
inductive Event where
  | downloadProgress (file_name : String) (downloaded total_size : Nat)
  | checksumProgress (file_name : String) (hashed total_size : Nat)
  | decompressionProgress (file_name : String) (compressed_read total_compressed_size : Nat)
deriving DecidableEq, Repr

/-- Primitive filesystem mutations performed by a task, in program order.
`renameFile` additionally records the content being committed. -/
inductive FsOp where
  | create (p : String)
  | writeChunk (p : String) (b : Bytes)
  | removeFile (p : String)
  | renameFile (src dst : String) (content : Bytes)
deriving DecidableEq, Repr

/-- Result of `client.get(url).send().await`. -/
inductive HttpResponse where
  | sendErr (e : String)
  | resp (status : Nat) (contentLength : Option Nat) (chunks : List (Except String Bytes))

/-- The ambient world of one run: the abstract SHA-256 compression, the HTTP
response for the resource URL, the gzip decoder (bytes written so far plus an
optional error), the progress sink, and injected per-path read failures. -/
structure Env where
  sha : Bytes → Bytes
  http : HttpResponse
  gunzip : Bytes → Bytes × Option String
  emit : Event → Option String
  readErr : String → Option String

/-- `resource_dir.join(&res.file_name)`. -/
def compressedPath (dir : String) (r : Resource) : String :=
  dir ++ "/" ++ r.file_name

/-- `resource_dir.join(format per source of name and the unchecked suffix)`. -/
def compressedUncheckedPath (dir : String) (r : Resource) : String :=
  compressedPath dir r ++ "_unchecked"

/-- `PathBuf::from(&res.file_path)`. -/
def finalPath (r : Resource) : String :=
  r.file_path

/-- The staged variant of the final path. -/
def finalUncheckedPath (r : Resource) : String :=
  finalPath r ++ "_unchecked"

/-- Split a byte list into successive chunks of 8192 bytes (the reader loop),
fuelled structurally by the list length so that it evaluates by `rfl`. -/
def chunkAux : Nat → Bytes → List Bytes
  | _, [] => []
  | 0, bs => [bs]
  | n + 1, bs => bs.take 8192 :: chunkAux n (bs.drop 8192)

/-- The sequence of reads performed by an 8 KiB buffered read loop. -/
def chunkBytes (bs : Bytes) : List Bytes :=
  chunkAux bs.length bs

/-- One lowercase hex digit. -/
def hexDigit (n : Nat) : Char :=
  if n < 10 then Char.ofNat (48 + n) else Char.ofNat (87 + n)

/-- Two lowercase hex digits of one byte. -/
def hexByte (b : Nat) : List Char :=
  [hexDigit (b / 16 % 16), hexDigit (b % 16)]

/-- `hex::encode`: lowercase hex of a byte string. -/
def hexEncode (bs : Bytes) : String :=
  String.mk (bs.map hexByte).flatten

/-- The hashing loop of `sha256_of_file_with_progress`: feed each chunk to the
hasher (modelled as the accumulated byte string) and emit a checksum-progress
event carrying the cumulative byte count after each chunk. -/
def hashChunksAcc (fname : String) (total : Nat) :
    List Bytes → Bytes → Nat → Bytes × List Event
  | [], acc, _ => (acc, [])
  | c :: cs, acc, hashed =>
    let hashed2 := hashed + c.length
    let rec2 := hashChunksAcc fname total cs (acc ++ c) hashed2
    (rec2.1, Event.checksumProgress fname hashed2 total :: rec2.2)

/-- Shallow embedding of `sha256_of_file_with_progress`: open the file
(propagating a missing-file or injected read error), hash it in 8 KiB chunks
with progress events, and return the lowercase hex digest. -/
def sha256_of_file_with_progress (env : Env) (fs : FS) (path fname : String) :
    Except String String × List Event :=
  match FS.read fs path with
  | none => (Except.error ("open failed: " ++ path), [])
  | some bs =>
    match env.readErr path with
    | some e => (Except.error e, [])
    | none =>
      let r := hashChunksAcc fname bs.length (chunkBytes bs) [] 0
      (Except.ok (hexEncode (env.sha r.1)), r.2)

/-- Cumulative progress events over a list of chunks (used for the
byte-counting reader wrapped around the gzip source). -/
def cumEvents (mk : Nat → Nat → Event) (total : Nat) :
    List Bytes → Nat → List Event
  | [], _ => []
  | c :: cs, sofar =>
    mk (sofar + c.length) total :: cumEvents mk total cs (sofar + c.length)

/-- `response.status().is_success()`: a 2xx status. -/
def isSuccess (status : Nat) : Bool :=
  200 ≤ status && status < 300

/-- The download streaming loop: write each chunk to the staged file, then
emit a download-progress event whose failure aborts the task (the source
propagates that emit error).  Returns the bytes written, the successfully
emitted events, the write operations, and the error if the loop aborted. -/
def dlLoop (emit : Event → Option String) (fname : String) (total : Nat)
    (cu : String) :
    List (Except String Bytes) → Bytes → Nat →
    Bytes × List Event × List FsOp × Option String
  | [], buf, _ => (buf, [], [], none)
  | Except.error e :: _, buf, _ =>
    (buf, [], [], some ("Error reading chunk for " ++ fname ++ ": " ++ e))
  | Except.ok c :: rest, buf, downloaded =>
    let buf2 := buf ++ c
    let d2 := downloaded + c.length
    let ev := Event.downloadProgress fname d2 total
    match emit ev with
    | some e =>
      (buf2, [], [FsOp.writeChunk cu c],
       some ("Failed to emit download progress: " ++ e))
    | none =>
      let rec2 := dlLoop emit fname total cu rest buf2 d2
      (rec2.1, ev :: rec2.2.1, FsOp.writeChunk cu c :: rec2.2.2.1, rec2.2.2.2)

/-- Result of running one phase (or one whole task): the filesystem after it,
the progress events delivered, the filesystem operations performed, and the
error with which the task returned, if any. -/
structure Outcome where
  fs : FS
  events : List Event
  ops : List FsOp
  err : Option String
deriving DecidableEq, Repr

/-- `fs::rename(src, dst)` followed by the surrounding error mapping: commit a
staged file to its final path, recording the committed content. -/
def commitRename (fs : FS) (src dst : String) (evs : List Event)
    (ops : List FsOp) : Outcome :=
  match FS.read fs src with
  | some b =>
    ⟨FS.write (FS.remove fs src) dst b, evs, ops ++ [FsOp.renameFile src dst b], none⟩
  | none =>
    ⟨fs, evs, ops, some ("Failed to rename " ++ src ++ " to " ++ dst)⟩

/-- The `Absent` arm of the compressed phase (source lines 230-327): perform
the HTTP GET, stream the body into the staged path, then verify and commit. -/
def downloadBranch (env : Env) (fs : FS) (c cu : String) (r : Resource) :
    Outcome :=
  match env.http with
  | HttpResponse.sendErr e =>
    ⟨fs, [], [], some ("Failed to download " ++ r.file_name ++ ": " ++ e)⟩
  | HttpResponse.resp status clen chunks =>
    if isSuccess status then
      let total := clen.getD 0
      let dl := dlLoop env.emit r.file_name total cu chunks [] 0
      let buf := dl.1
      let evs := dl.2.1
      let ops0 := FsOp.create cu :: dl.2.2.1
      let fs2 := FS.write fs cu buf
      match dl.2.2.2 with
      | some e => ⟨fs2, evs, ops0, some e⟩
      | none =>
        if r.checksum_compressed ≠ "" then
          match sha256_of_file_with_progress env fs2 cu r.file_name with
          | (Except.ok h, hevs) =>
            if h ≠ r.checksum_compressed then
              ⟨FS.remove fs2 cu, evs ++ hevs, ops0 ++ [FsOp.removeFile cu],
               some ("Compressed checksum mismatch for " ++ r.file_name)⟩
            else
              commitRename fs2 cu c (evs ++ hevs) ops0
          | (Except.error e, hevs) =>
            ⟨FS.remove fs2 cu, evs ++ hevs, ops0 ++ [FsOp.removeFile cu],
             some ("Error computing compressed checksum for " ++ r.file_name ++ ": " ++ e)⟩
        else
          commitRename fs2 cu c evs ops0
    else
      ⟨fs, [], [],
       some ("Failed to download " ++ r.file_name ++ ". HTTP Status: " ++ toString status)⟩

/-- Phase A of one task (source lines 183-327): handle the compressed
artifact.  Staged: re-verify (mismatch or hash error deletes the staged file
and falls through without failing the task).  Committed: skip.  Absent:
download. -/
def phaseA (env : Env) (fs : FS) (dir : String) (r : Resource) : Outcome :=
  let c := compressedPath dir r
  let cu := compressedUncheckedPath dir r
  match FS.read fs cu with
  | some _ =>
    if r.checksum_compressed ≠ "" then
      match sha256_of_file_with_progress env fs cu r.file_name with
      | (Except.ok h, hevs) =>
        if h ≠ r.checksum_compressed then
          ⟨FS.remove fs cu, hevs, [FsOp.removeFile cu], none⟩
        else
          commitRename fs cu c hevs []
      | (Except.error _, hevs) =>
        ⟨FS.remove fs cu, hevs, [FsOp.removeFile cu], none⟩
    else
      commitRename fs cu c [] []
  | none =>
    if FS.has fs c then
      ⟨fs, [], [], none⟩
    else
      downloadBranch env fs c cu r

/-- The decompress arm of the final phase (source lines 374-456): check the
committed compressed precursor, stream-decompress into the staged final path
with byte-counting progress, then verify and commit. -/
def decompressBranch (env : Env) (fs : FS) (c f fu : String) (r : Resource) :
    Outcome :=
  match FS.read fs c with
  | none =>
    ⟨fs, [], [],
     some ("Cannot decompress " ++ r.file_name ++ " because compressed file is missing")⟩
  | some cbytes =>
    let total := cbytes.length
    let devs :=
      cumEvents (fun a b => Event.decompressionProgress r.file_name a b) total
        (chunkBytes cbytes) 0
    let g := env.gunzip cbytes
    let fs1 := FS.write fs fu g.1
    let ops0 := [FsOp.create fu, FsOp.writeChunk fu g.1]
    match g.2 with
    | some e =>
      ⟨fs1, devs, ops0, some ("Error decompressing " ++ r.file_name ++ ": " ++ e)⟩
    | none =>
      if r.checksum_decompressed ≠ "" then
        match sha256_of_file_with_progress env fs1 fu r.file_name with
        | (Except.ok h, hevs) =>
          if h ≠ r.checksum_decompressed then
            ⟨FS.remove fs1 fu, devs ++ hevs, ops0 ++ [FsOp.removeFile fu],
             some ("Decompressed checksum mismatch for " ++ r.file_name)⟩
          else
            commitRename fs1 fu f (devs ++ hevs) ops0
        | (Except.error e, hevs) =>
          ⟨FS.remove fs1 fu, devs ++ hevs, ops0 ++ [FsOp.removeFile fu],
           some ("Error computing decompressed checksum for " ++ r.file_name ++ ": " ++ e)⟩
      else
        commitRename fs1 fu f devs ops0

/-- Phase B of one task (source lines 329-457): handle the decompressed
artifact when the resource is marked compressed; mirror of phase A with
download replaced by decompression. -/
def phaseB (env : Env) (fs : FS) (dir : String) (r : Resource) : Outcome :=
  if r.compressed then
    let c := compressedPath dir r
    let f := finalPath r
    let fu := finalUncheckedPath r
    match FS.read fs fu with
    | some _ =>
      if r.checksum_decompressed ≠ "" then
        match sha256_of_file_with_progress env fs fu r.file_name with
        | (Except.ok h, hevs) =>
          if h ≠ r.checksum_decompressed then
            ⟨FS.remove fs fu, hevs, [FsOp.removeFile fu], none⟩
          else
            commitRename fs fu f hevs []
        | (Except.error _, hevs) =>
          ⟨FS.remove fs fu, hevs, [FsOp.removeFile fu], none⟩
      else
        commitRename fs fu f [] []
    | none =>
      if FS.has fs f then
        ⟨fs, [], [], none⟩
      else
        decompressBranch env fs c f fu r
  else
    ⟨fs, [], [], none⟩

/-- One whole per-resource task (the async block of `download_resources`):
phase A, then -- unless phase A returned an error -- phase B. -/
def runTask (env : Env) (fs : FS) (dir : String) (r : Resource) : Outcome :=
  let a := phaseA env fs dir r
  match a.err with
  | some _ => a
  | none =>
    let b := phaseB env a.fs dir r
    ⟨b.fs, a.events ++ b.events, a.ops ++ b.ops, b.err⟩

/-- The task result as the orchestrator sees it. -/
def taskResult (env : Env) (fs : FS) (dir : String) (r : Resource) :
    Except String Unit :=
  match (runTask env fs dir r).err with
  | none => Except.ok ()
  | some e => Except.error e

/-- Source lines 464-473: after `join_all`, scan the results in catalog order
and return the first error, else `Ok`. -/
def aggregateResults : List (Except String Unit) → Except String Unit
  | [] => Except.ok ()
  | Except.error e :: _ => Except.error e
  | Except.ok _ :: rest => aggregateResults rest

/-- The orchestrator `download_resources`: run every per-resource task (the
tasks operate on disjoint paths, modelled as independent states) and
aggregate the awaited results in catalog order. -/
def download_resources (dir : String) (inputs : List (Env × FS × Resource)) :
    Except String Unit :=
  aggregateResults (inputs.map fun t => taskResult t.1 t.2.1 dir t.2.2)

/-- A filesystem operation is commit-safe for resource `r`: creates, chunk
writes and removals touch only the two staged paths, and a rename moves a
staged path onto its committed path carrying content whose digest matches
the expected digest unless that digest is empty. -/
def opSafe (env : Env) (dir : String) (r : Resource) : FsOp → Bool
  | FsOp.create p =>
    p == compressedUncheckedPath dir r || p == finalUncheckedPath r
  | FsOp.writeChunk p _ =>
    p == compressedUncheckedPath dir r || p == finalUncheckedPath r
  | FsOp.removeFile p =>
    p == compressedUncheckedPath dir r || p == finalUncheckedPath r
  | FsOp.renameFile src dst b =>
    (src == compressedUncheckedPath dir r && dst == compressedPath dir r &&
      (r.checksum_compressed == "" || hexEncode (env.sha b) == r.checksum_compressed)) ||
    (src == finalUncheckedPath r && dst == finalPath r &&
      (r.checksum_decompressed == "" || hexEncode (env.sha b) == r.checksum_decompressed))

/-- Both artifacts of `r` are committed and nothing is staged. -/
def committedState (fs : FS) (dir : String) (r : Resource) : Bool :=
  FS.has fs (compressedPath dir r) &&
  !(FS.has fs (compressedUncheckedPath dir r)) &&
  (!r.compressed ||
    (FS.has fs (finalPath r) && !(FS.has fs (finalUncheckedPath r))))

/-- Recognise a checksum-progress event. -/
def Event.isChecksum : Event → Bool
  | Event.checksumProgress _ _ _ => true
  | _ => false

/-- Every character of `s` is a lowercase hex digit. -/
def isLowerHex (s : String) : Bool :=
  s.data.all fun ch => ch ∈ "0123456789abcdef".data

/-! ### Concrete fixtures used to instantiate the theorems -/

/-- A stand-in digest compression: the identity, so the hex digest of a byte
string is just its hex encoding. -/
def shaId : Bytes → Bytes := fun b => b

/-- A degenerate digest compression mapping everything to the empty digest. -/
def shaNil : Bytes → Bytes := fun _ => []

/-- A server that is unreachable. -/
def envOffline : Env :=
  ⟨shaId, HttpResponse.sendErr "offline", fun b => (b, none), fun _ => none,
   fun _ => none⟩

/-- A server delivering the single byte 1 in one chunk. -/
def envServe1 : Env :=
  ⟨shaId, HttpResponse.resp 200 (some 1) [Except.ok [1]], fun b => (b, none),
   fun _ => none, fun _ => none⟩

/-- Same server, but every digest computes to the empty string. -/
def envServeNil : Env :=
  ⟨shaNil, HttpResponse.resp 200 (some 1) [Except.ok [1]], fun b => (b, none),
   fun _ => none, fun _ => none⟩

/-- Same server, but the progress sink fails on every delivery. -/
def envEmitFail : Env :=
  { envServe1 with emit := fun _ => some "sink down" }

/-- A plain resource: no checksums, no decompression. -/
def rPlain : Resource := ⟨"a", "http://u", "d/a", "", "", false⟩

/-- A resource whose compressed checksum can never match (not a hex string). -/
def rChk : Resource := ⟨"a", "http://u", "d/a", "cc-bad", "", false⟩

/-- A resource whose compressed checksum matches the byte 1 under `shaId`. -/
def rChk01 : Resource := ⟨"a", "http://u", "d/a", "01", "", false⟩

/-- A gzip resource with both checksums set. -/
def rGz : Resource := ⟨"a.gz", "http://u", "d/a", "h1", "h2", true⟩

/-- A gzip resource whose compressed checksum matches the byte 1 under
`shaId` and whose decompressed checksum is skipped. -/
def rGz01 : Resource := ⟨"a.gz", "http://u", "d/a", "01", "", true⟩

/-- A filesystem holding only a staged corrupt compressed gzip file. -/
def fsStagedGz : FS := [("d/a.gz_unchecked", [0])]

/-- A filesystem holding only a staged compressed file with content byte 0. -/
def fsStaged0 : FS := [("d/a_unchecked", [0])]

/-- A filesystem holding only the committed compressed file. -/
def fsCommitted : FS := [("d/a", [1])]

/-- A filesystem holding a single file at path p with content byte 7. -/
def fsP : FS := [("p", [7])]

/-! ### Helper lemmas -/

theorem FS.read_remove_self (fs : FS) (p : String) :
    FS.read (FS.remove fs p) p = none := by
  induction fs with
  | nil => rfl
  | cons e rest ih =>
    obtain ⟨q, b⟩ := e
    by_cases h : p = q
    · subst h; simp [FS.remove, ih]
    · simp [FS.remove, FS.read, h, ih]

theorem FS.read_remove_ne (fs : FS) (p q : String) (h : q ≠ p) :
    FS.read (FS.remove fs p) q = FS.read fs q := by
  induction fs with
  | nil => rfl
  | cons e rest ih =>
    obtain ⟨k, b⟩ := e
    by_cases hp : p = k
    · subst hp
      simp [FS.remove, FS.read, h, ih]
    · by_cases hq : q = k
      · simp [FS.remove, FS.read, hp, hq]
      · simp [FS.remove, FS.read, hp, hq, ih]

theorem FS.read_write_self (fs : FS) (p : String) (b : Bytes) :
    FS.read (FS.write fs p b) p = some b := by
  simp [FS.write, FS.read]

theorem FS.read_write_ne (fs : FS) (p q : String) (b : Bytes) (h : q ≠ p) :
    FS.read (FS.write fs p b) q = FS.read fs q := by
  simp [FS.write, FS.read, h, FS.read_remove_ne fs p q h]

theorem String.length_unchecked : String.length "_unchecked" = 10 := rfl

theorem ne_append_unchecked (s : String) : s ≠ s ++ "_unchecked" := by
  intro h
  have h2 := congrArg String.length h
  rw [String.length_append, String.length_unchecked] at h2
  omega

theorem compressedPath_ne_unchecked (dir : String) (r : Resource) :
    compressedPath dir r ≠ compressedUncheckedPath dir r :=
  ne_append_unchecked _

theorem finalPath_ne_unchecked (r : Resource) :
    finalPath r ≠ finalUncheckedPath r :=
  ne_append_unchecked _

theorem chunkAux_flatten :
    ∀ (n : Nat) (bs : Bytes), bs.length ≤ n → (chunkAux n bs).flatten = bs := by
  intro n
  induction n with
  | zero =>
    intro bs h
    have : bs = [] := List.length_eq_zero.mp (Nat.le_zero.mp h)
    subst this; rfl
  | succ n ih =>
    intro bs h
    cases bs with
    | nil => rfl
    | cons c cs =>
      have hlen : (List.drop 8192 (c :: cs)).length ≤ n := by
        rw [List.length_drop]
        simp at h ⊢
        omega
      simp only [chunkAux, List.flatten_cons, ih _ hlen]
      exact List.take_append_drop 8192 (c :: cs)

theorem chunkBytes_flatten (bs : Bytes) : (chunkBytes bs).flatten = bs :=
  chunkAux_flatten bs.length bs le_rfl

theorem chunkAux_full_sizes :
    ∀ (n : Nat) (bs : Bytes), bs.length ≤ n →
      ∀ (i : Nat) (h : i + 1 < (chunkAux n bs).length),
        ((chunkAux n bs).get ⟨i, Nat.lt_of_succ_lt h⟩).length = 8192 := by
  intro n
  induction n with
  | zero =>
    intro bs hb i h
    have : bs = [] := List.length_eq_zero.mp (Nat.le_zero.mp hb)
    subst this; simp [chunkAux] at h
  | succ n ih =>
    intro bs hb i h
    cases bs with
    | nil => simp [chunkAux] at h
    | cons c cs =>
      have hlen : (List.drop 8192 (c :: cs)).length ≤ n := by
        rw [List.length_drop]
        simp at hb ⊢
        omega
      cases i with
      | zero =>
        simp only [chunkAux, List.length_cons] at h ⊢
        have hrest : chunkAux n (List.drop 8192 (c :: cs)) ≠ [] := by
          intro he
          rw [he] at h
          simp at h
        have hdrop : List.drop 8192 (c :: cs) ≠ [] := by
          intro he
          rw [he] at hrest
          exact hrest (by cases n <;> rfl)
        have hgt : 8192 < (c :: cs).length := by
          by_contra hle
          exact hdrop (List.drop_eq_nil_of_le (Nat.le_of_not_lt hle))
        show (List.take 8192 (c :: cs)).length = 8192
        rw [List.length_take]
        omega
      | succ i =>
        simp only [chunkAux, List.length_cons] at h ⊢
        have h2 : i + 1 < (chunkAux n (List.drop 8192 (c :: cs))).length :=
          Nat.lt_of_succ_lt_succ h
        simpa using ih _ hlen i h2

theorem chunkBytes_full_sizes (bs : Bytes) (i : Nat)
    (h : i + 1 < (chunkBytes bs).length) :
    ((chunkBytes bs).get ⟨i, Nat.lt_of_succ_lt h⟩).length = 8192 :=
  chunkAux_full_sizes bs.length bs le_rfl i h

theorem hashChunksAcc_fst (fname : String) (t : Nat) :
    ∀ (cs : List Bytes) (acc : Bytes) (h : Nat),
      (hashChunksAcc fname t cs acc h).1 = acc ++ cs.flatten := by
  intro cs
  induction cs with
  | nil => intro acc h; simp [hashChunksAcc]
  | cons c cs ih =>
    intro acc h
    simp [hashChunksAcc, ih, List.append_assoc]

theorem hashChunksAcc_snd (fname : String) (t : Nat) :
    ∀ (cs : List Bytes) (acc : Bytes) (h : Nat),
      (hashChunksAcc fname t cs acc h).2 =
        (List.range cs.length).map fun i =>
          Event.checksumProgress fname
            (h + ((cs.take (i + 1)).map List.length).sum) t := by
  intro cs
  induction cs with
  | nil => intro acc h; simp [hashChunksAcc]
  | cons c cs ih =>
    intro acc h
    simp only [hashChunksAcc, ih, List.length_cons, List.range_succ_eq_map,
      List.map_cons, List.map_map, List.cons.injEq]
    refine ⟨by simp, ?_⟩
    apply List.map_congr_left
    intro i _
    simp [Function.comp, List.take_succ_cons, Nat.add_assoc]

theorem sha256_read_some (env : Env) (fs : FS) (p fname : String) (bs : Bytes)
    (h1 : FS.read fs p = some bs) (h2 : env.readErr p = none) :
    sha256_of_file_with_progress env fs p fname =
      (Except.ok (hexEncode (env.sha bs)),
       (hashChunksAcc fname bs.length (chunkBytes bs) [] 0).2) := by
  simp only [sha256_of_file_with_progress, h1, h2]
  rw [hashChunksAcc_fst, chunkBytes_flatten]
  rfl

theorem sha256_read_err (env : Env) (fs : FS) (p fname : String) (bs : Bytes)
    (e : String) (h1 : FS.read fs p = some bs) (h2 : env.readErr p = some e) :
    sha256_of_file_with_progress env fs p fname = (Except.error e, []) := by
  simp [sha256_of_file_with_progress, h1, h2]

theorem hexDigit_mem : ∀ n < 16, hexDigit n ∈ "0123456789abcdef".data := by
  decide

theorem isLowerHex_hexEncode (bs : Bytes) : isLowerHex (hexEncode bs) = true := by
  simp only [isLowerHex, hexEncode, List.all_eq_true, decide_eq_true_eq]
  intro ch hch
  rw [List.mem_flatten] at hch
  obtain ⟨l, hl, hchl⟩ := hch
  rw [List.mem_map] at hl
  obtain ⟨b, _, rfl⟩ := hl
  simp only [hexByte, List.mem_cons, List.mem_singleton] at hchl
  rcases hchl with h | h | h
  · rw [h]; exact hexDigit_mem _ (Nat.mod_lt _ (by omega))
  · rw [h]; exact hexDigit_mem _ (Nat.mod_lt _ (by omega))
  · cases h

theorem dlLoop_ops_writes (emit : Event → Option String) (fname : String)
    (total : Nat) (cu : String) :
    ∀ (chunks : List (Except String Bytes)) (buf : Bytes) (d : Nat),
      ∀ op ∈ (dlLoop emit fname total cu chunks buf d).2.2.1,
        ∃ b, op = FsOp.writeChunk cu b := by
  intro chunks
  induction chunks with
  | nil => intro buf d op hop; simp [dlLoop] at hop
  | cons ch rest ih =>
    intro buf d op hop
    cases ch with
    | error e => simp [dlLoop] at hop
    | ok c =>
      simp only [dlLoop] at hop
      cases hemit : emit (Event.downloadProgress fname (d + c.length) total) with
      | some e =>
        rw [hemit] at hop
        simp at hop
        exact ⟨c, hop⟩
      | none =>
        rw [hemit] at hop
        simp only [List.mem_cons] at hop
        rcases hop with h | h
        · exact ⟨c, h⟩
        · exact ih _ _ op h

theorem dlLoop_events_download (emit : Event → Option String) (fname : String)
    (total : Nat) (cu : String) :
    ∀ (chunks : List (Except String Bytes)) (buf : Bytes) (d : Nat),
      ∀ ev ∈ (dlLoop emit fname total cu chunks buf d).2.1,
        ∃ a b, ev = Event.downloadProgress fname a b := by
  intro chunks
  induction chunks with
  | nil => intro buf d ev hev; simp [dlLoop] at hev
  | cons ch rest ih =>
    intro buf d ev hev
    cases ch with
    | error e => simp [dlLoop] at hev
    | ok c =>
      simp only [dlLoop] at hev
      cases hemit : emit (Event.downloadProgress fname (d + c.length) total) with
      | some e => rw [hemit] at hev; simp at hev
      | none =>
        rw [hemit] at hev
        simp only [List.mem_cons] at hev
        rcases hev with h | h
        · exact ⟨_, _, h⟩
        · exact ih _ _ ev h

theorem cumEvents_mem (mk : Nat → Nat → Event) (total : Nat) :
    ∀ (cs : List Bytes) (sofar : Nat) (ev : Event),
      ev ∈ cumEvents mk total cs sofar → ∃ a, ev = mk a total := by
  intro cs
  induction cs with
  | nil => intro sofar ev hev; simp [cumEvents] at hev
  | cons c rest ih =>
    intro sofar ev hev
    simp only [cumEvents, List.mem_cons] at hev
    rcases hev with h | h
    · exact ⟨_, h⟩
    · exact ih _ ev h

theorem phaseA_skip (env : Env) (fs : FS) (dir : String) (r : Resource)
    (h1 : FS.read fs (compressedUncheckedPath dir r) = none)
    (h2 : FS.has fs (compressedPath dir r) = true) :
    phaseA env fs dir r = ⟨fs, [], [], none⟩ := by
  simp [phaseA, h1, h2]

theorem phaseB_skip (env : Env) (fs : FS) (dir : String) (r : Resource)
    (h0 : r.compressed = true)
    (h1 : FS.read fs (finalUncheckedPath r) = none)
    (h2 : FS.has fs (finalPath r) = true) :
    phaseB env fs dir r = ⟨fs, [], [], none⟩ := by
  simp [phaseB, h0, h1, h2]

theorem phaseB_flat (env : Env) (fs : FS) (dir : String) (r : Resource)
    (h0 : r.compressed = false) :
    phaseB env fs dir r = ⟨fs, [], [], none⟩ := by
  simp [phaseB, h0]

theorem has_false_read_none (fs : FS) (p : String) (h : FS.has fs p = false) :
    FS.read fs p = none := by
  cases hr : FS.read fs p with
  | none => rfl
  | some b => rw [FS.has, hr] at h; simp at h

theorem runTask_committed (env : Env) (fs : FS) (dir : String) (r : Resource)
    (h : committedState fs dir r = true) :
    runTask env fs dir r = ⟨fs, [], [], none⟩ := by
  simp only [committedState, Bool.and_eq_true, Bool.not_eq_true',
    Bool.or_eq_true, Bool.not_eq_true] at h
  obtain ⟨⟨hc, hcu⟩, hb⟩ := h
  have ha := phaseA_skip env fs dir r (has_false_read_none fs _ hcu) hc
  cases hcomp : r.compressed with
  | false =>
    have hbb := phaseB_flat env fs dir r hcomp
    simp [runTask, ha, hbb]
  | true =>
    rcases hb with hb | ⟨hf, hfu⟩
    · rw [hcomp] at hb; cases hb
    · have hbb := phaseB_skip env fs dir r hcomp (has_false_read_none fs _ hfu) hf
      simp [runTask, ha, hbb]

theorem aggregateResults_ok_iff (rs : List (Except String Unit)) :
    aggregateResults rs = Except.ok () ↔ ∀ x ∈ rs, x = Except.ok () := by
  induction rs with
  | nil => simp [aggregateResults]
  | cons x rest ih =>
    cases x with
    | error e =>
      simp only [aggregateResults]
      constructor
      · intro h; cases h
      · intro h
        have := h _ (List.mem_cons_self _ _)
        cases this
    | ok u =>
      cases u
      simp only [aggregateResults]
      rw [ih]
      constructor
      · intro h y hy
        rcases List.mem_cons.mp hy with h1 | h2
        · rw [h1]
        · exact h y h2
      · intro h y hy
        exact h y (List.mem_cons_of_mem _ hy)

theorem aggregateResults_first_err :
    ∀ (rs : List (Except String Unit)) (i : Nat) (hi : i < rs.length)
      (e : String),
      rs.get ⟨i, hi⟩ = Except.error e →
      (∀ (j : Nat) (hj : j < rs.length), j < i → rs.get ⟨j, hj⟩ = Except.ok ()) →
      aggregateResults rs = Except.error e := by
  intro rs
  induction rs with
  | nil => intro i hi; simp at hi
  | cons x rest ih =>
    intro i hi e hget hprev
    cases i with
    | zero =>
      simp only [List.get] at hget
      rw [hget]
      rfl
    | succ i =>
      have hx : x = Except.ok () := by
        have h0 := hprev 0 (by omega) (by omega)
        simpa using h0
      subst hx
      simp only [aggregateResults]
      apply ih i (by simpa using hi) e (by simpa using hget)
      intro j hj hji
      have hj1 := hprev (j + 1) (by omega) (by omega)
      simpa using hj1

theorem taskResult_ok_iff (env : Env) (fs : FS) (dir : String) (r : Resource) :
    taskResult env fs dir r = Except.ok () ↔ (runTask env fs dir r).err = none := by
  cases h : (runTask env fs dir r).err with
  | none => simp [taskResult, h]
  | some e => simp [taskResult, h]

theorem taskResult_err (env : Env) (fs : FS) (dir : String) (r : Resource)
    (e : String) (h : (runTask env fs dir r).err = some e) :
    taskResult env fs dir r = Except.error e := by
  simp [taskResult, h]

theorem phaseA_staged_mismatch (env : Env) (fs : FS) (dir : String)
    (r : Resource) (b : Bytes)
    (hcu : FS.read fs (compressedUncheckedPath dir r) = some b)
    (hcs : r.checksum_compressed ≠ "")
    (hre : env.readErr (compressedUncheckedPath dir r) = none)
    (hmm : hexEncode (env.sha b) ≠ r.checksum_compressed) :
    phaseA env fs dir r =
      ⟨FS.remove fs (compressedUncheckedPath dir r),
       (hashChunksAcc r.file_name b.length (chunkBytes b) [] 0).2,
       [FsOp.removeFile (compressedUncheckedPath dir r)], none⟩ := by
  simp only [phaseA, hcu]
  rw [sha256_read_some env fs _ r.file_name b hcu hre]
  simp [hcs, hmm]

theorem phaseA_staged_readErr (env : Env) (fs : FS) (dir : String)
    (r : Resource) (b : Bytes) (e : String)
    (hcu : FS.read fs (compressedUncheckedPath dir r) = some b)
    (hcs : r.checksum_compressed ≠ "")
    (hre : env.readErr (compressedUncheckedPath dir r) = some e) :
    phaseA env fs dir r =
      ⟨FS.remove fs (compressedUncheckedPath dir r), [],
       [FsOp.removeFile (compressedUncheckedPath dir r)], none⟩ := by
  simp only [phaseA, hcu]
  rw [sha256_read_err env fs _ r.file_name b e hcu hre]
  simp [hcs]

theorem phaseA_staged_skipHash (env : Env) (fs : FS) (dir : String)
    (r : Resource) (b : Bytes)
    (hcu : FS.read fs (compressedUncheckedPath dir r) = some b)
    (hcs : r.checksum_compressed = "") :
    phaseA env fs dir r =
      ⟨FS.write (FS.remove fs (compressedUncheckedPath dir r))
         (compressedPath dir r) b, [],
       [FsOp.renameFile (compressedUncheckedPath dir r) (compressedPath dir r) b],
       none⟩ := by
  simp [phaseA, hcu, hcs, commitRename]

theorem phaseA_download_mismatch (env : Env) (fs : FS) (dir : String)
    (r : Resource) (st : Nat) (clen : Option Nat)
    (chunks : List (Except String Bytes)) (buf : Bytes) (evs : List Event)
    (dops : List FsOp)
    (hcu : FS.read fs (compressedUncheckedPath dir r) = none)
    (hc : FS.has fs (compressedPath dir r) = false)
    (hhttp : env.http = HttpResponse.resp st clen chunks)
    (hst : isSuccess st = true)
    (hdl : dlLoop env.emit r.file_name (clen.getD 0)
        (compressedUncheckedPath dir r) chunks [] 0 = (buf, evs, dops, none))
    (hre : env.readErr (compressedUncheckedPath dir r) = none)
    (hcs : r.checksum_compressed ≠ "")
    (hmm : hexEncode (env.sha buf) ≠ r.checksum_compressed) :
    phaseA env fs dir r =
      ⟨FS.remove (FS.write fs (compressedUncheckedPath dir r) buf)
         (compressedUncheckedPath dir r),
       evs ++ (hashChunksAcc r.file_name buf.length (chunkBytes buf) [] 0).2,
       (FsOp.create (compressedUncheckedPath dir r) :: dops) ++
         [FsOp.removeFile (compressedUncheckedPath dir r)],
       some ("Compressed checksum mismatch for " ++ r.file_name)⟩ := by
  simp only [phaseA, hcu, hc, downloadBranch, hhttp, hst, if_true, hdl]
  rw [sha256_read_some env _ _ r.file_name buf
    (FS.read_write_self fs _ buf) hre]
  simp [hcs, hmm]

theorem phaseA_download_ok (env : Env) (fs : FS) (dir : String)
    (r : Resource) (st : Nat) (clen : Option Nat)
    (chunks : List (Except String Bytes)) (buf : Bytes) (evs : List Event)
    (dops : List FsOp)
    (hcu : FS.read fs (compressedUncheckedPath dir r) = none)
    (hc : FS.has fs (compressedPath dir r) = false)
    (hhttp : env.http = HttpResponse.resp st clen chunks)
    (hst : isSuccess st = true)
    (hdl : dlLoop env.emit r.file_name (clen.getD 0)
        (compressedUncheckedPath dir r) chunks [] 0 = (buf, evs, dops, none))
    (hre : env.readErr (compressedUncheckedPath dir r) = none)
    (hcs : r.checksum_compressed ≠ "")
    (hok : hexEncode (env.sha buf) = r.checksum_compressed) :
    phaseA env fs dir r =
      ⟨FS.write
         (FS.remove (FS.write fs (compressedUncheckedPath dir r) buf)
           (compressedUncheckedPath dir r))
         (compressedPath dir r) buf,
       evs ++ (hashChunksAcc r.file_name buf.length (chunkBytes buf) [] 0).2,
       (FsOp.create (compressedUncheckedPath dir r) :: dops) ++
         [FsOp.renameFile (compressedUncheckedPath dir r)
           (compressedPath dir r) buf],
       none⟩ := by
  simp only [phaseA, hcu, hc, downloadBranch, hhttp, hst, if_true, hdl]
  rw [sha256_read_some env _ _ r.file_name buf
    (FS.read_write_self fs _ buf) hre]
  simp [hcs, hok, commitRename, FS.read_write_self]

theorem phaseA_absent (env : Env) (fs : FS) (dir : String) (r : Resource)
    (hcu : FS.read fs (compressedUncheckedPath dir r) = none)
    (hc : FS.has fs (compressedPath dir r) = false) :
    phaseA env fs dir r =
      downloadBranch env fs (compressedPath dir r)
        (compressedUncheckedPath dir r) r := by
  simp [phaseA, hcu, hc]

theorem phaseA_download_skipHash (env : Env) (fs : FS) (dir : String)
    (r : Resource) (st : Nat) (clen : Option Nat)
    (chunks : List (Except String Bytes)) (buf : Bytes) (evs : List Event)
    (dops : List FsOp)
    (hcu : FS.read fs (compressedUncheckedPath dir r) = none)
    (hc : FS.has fs (compressedPath dir r) = false)
    (hhttp : env.http = HttpResponse.resp st clen chunks)
    (hst : isSuccess st = true)
    (hdl : dlLoop env.emit r.file_name (clen.getD 0)
        (compressedUncheckedPath dir r) chunks [] 0 = (buf, evs, dops, none))
    (hcs : r.checksum_compressed = "") :
    phaseA env fs dir r =
      ⟨FS.write
         (FS.remove (FS.write fs (compressedUncheckedPath dir r) buf)
           (compressedUncheckedPath dir r))
         (compressedPath dir r) buf,
       evs,
       (FsOp.create (compressedUncheckedPath dir r) :: dops) ++
         [FsOp.renameFile (compressedUncheckedPath dir r)
           (compressedPath dir r) buf],
       none⟩ := by
  simp only [phaseA, hcu, hc, downloadBranch, hhttp, hst, if_true, hdl]
  simp [hcs, commitRename, FS.read_write_self]

theorem phaseB_staged_skipHash (env : Env) (fs : FS) (dir : String)
    (r : Resource) (b : Bytes)
    (hcomp : r.compressed = true)
    (hfu : FS.read fs (finalUncheckedPath r) = some b)
    (hds : r.checksum_decompressed = "") :
    phaseB env fs dir r =
      ⟨FS.write (FS.remove fs (finalUncheckedPath r)) (finalPath r) b, [],
       [FsOp.renameFile (finalUncheckedPath r) (finalPath r) b], none⟩ := by
  simp [phaseB, hcomp, hfu, hds, commitRename]

theorem phaseB_decompress_skipHash (env : Env) (fs : FS) (dir : String)
    (r : Resource) (cb ob : Bytes)
    (hcomp : r.compressed = true)
    (hfu : FS.read fs (finalUncheckedPath r) = none)
    (hf : FS.has fs (finalPath r) = false)
    (hcp : FS.read fs (compressedPath dir r) = some cb)
    (hg : env.gunzip cb = (ob, none))
    (hds : r.checksum_decompressed = "") :
    phaseB env fs dir r =
      ⟨FS.write (FS.remove (FS.write fs (finalUncheckedPath r) ob)
          (finalUncheckedPath r)) (finalPath r) ob,
       cumEvents (fun a b2 => Event.decompressionProgress r.file_name a b2)
         cb.length (chunkBytes cb) 0,
       [FsOp.create (finalUncheckedPath r), FsOp.writeChunk (finalUncheckedPath r) ob,
        FsOp.renameFile (finalUncheckedPath r) (finalPath r) ob],
       none⟩ := by
  simp only [phaseB, hcomp, hfu, hf, if_true, decompressBranch, hcp, hg]
  simp [hds, commitRename, FS.read_write_self]

theorem runTask_errA_none_flat (env : Env) (fs : FS) (dir : String)
    (r : Resource) (ha : (phaseA env fs dir r).err = none)
    (hcomp : r.compressed = false) :
    runTask env fs dir r =
      ⟨(phaseA env fs dir r).fs, (phaseA env fs dir r).events,
       (phaseA env fs dir r).ops, none⟩ := by
  simp only [runTask, ha, phaseB_flat env _ dir r hcomp]
  simp

/-! ### Claim theorems -/

/-- C4: for a resource with compressed = true whose final artifact is neither
staged nor committed, if the committed compressed artifact does not exist
when the decompression phase starts, the phase fails fast with the dedicated
missing-precursor error, performs no filesystem operations (in particular no
writes to the staged final path), and leaves the filesystem unchanged. -/
theorem C4_missing_precursor (env : Env) (fs : FS) (dir : String) (r : Resource)
    (h0 : r.compressed = true)
    (h1 : FS.read fs (finalUncheckedPath r) = none)
    (h2 : FS.has fs (finalPath r) = false)
    (h3 : FS.read fs (compressedPath dir r) = none) :
    phaseB env fs dir r =
      ⟨fs, [], [],
       some ("Cannot decompress " ++ r.file_name ++
         " because compressed file is missing")⟩ := by
  simp [phaseB, h0, h1, h2, decompressBranch, h3]

/-- Witness for C4 at a concrete gzip resource on an empty filesystem. -/
theorem C4_missing_precursor_witness :
    phaseB envOffline [] "d" rGz =
      ⟨[], [], [],
       some ("Cannot decompress " ++ "a.gz" ++
         " because compressed file is missing")⟩ :=
  C4_missing_precursor envOffline [] "d" rGz rfl rfl rfl rfl

/-- C10: a verification failure in the Staged branch of the compressed phase
(digest mismatch or a read error while hashing) deletes the staged file but
does not fail the task; with compressed = false the task reports success even
though neither the staged nor the committed compressed artifact remains. -/
theorem C10_staged_failure_silent (env : Env) (fs : FS) (dir : String)
    (r : Resource) (b : Bytes)
    (hcu : FS.read fs (compressedUncheckedPath dir r) = some b)
    (hcs : r.checksum_compressed ≠ "")
    (hc : FS.has fs (compressedPath dir r) = false)
    (hcomp : r.compressed = false)
    (hfail : (env.readErr (compressedUncheckedPath dir r) = none ∧
        hexEncode (env.sha b) ≠ r.checksum_compressed) ∨
      (∃ e, env.readErr (compressedUncheckedPath dir r) = some e)) :
    (runTask env fs dir r).err = none ∧
    FS.read (runTask env fs dir r).fs (compressedUncheckedPath dir r) = none ∧
    FS.read (runTask env fs dir r).fs (compressedPath dir r) = none := by
  have hA : (phaseA env fs dir r).fs =
      FS.remove fs (compressedUncheckedPath dir r) ∧
      (phaseA env fs dir r).err = none := by
    rcases hfail with ⟨hre, hmm⟩ | ⟨e, hre⟩
    · rw [phaseA_staged_mismatch env fs dir r b hcu hcs hre hmm]
      exact ⟨rfl, rfl⟩
    · rw [phaseA_staged_readErr env fs dir r b e hcu hcs hre]
      exact ⟨rfl, rfl⟩
  obtain ⟨hafs, haerr⟩ := hA
  have hrun : runTask env fs dir r =
      ⟨(phaseA env fs dir r).fs, (phaseA env fs dir r).events,
       (phaseA env fs dir r).ops, none⟩ := by
    simp only [runTask, haerr, phaseB_flat env _ dir r hcomp]
    simp
  rw [hrun, hafs]
  refine ⟨rfl, FS.read_remove_self fs _, ?_⟩
  rw [FS.read_remove_ne fs _ _ (compressedPath_ne_unchecked dir r)]
  exact has_false_read_none fs _ hc

/-- Witness for C10: a corrupt staged file under a non-matching checksum. -/
theorem C10_staged_failure_silent_witness :
    (runTask envOffline fsStaged0 "d" rChk).err = none ∧
    FS.read (runTask envOffline fsStaged0 "d" rChk).fs
      (compressedUncheckedPath "d" rChk) = none ∧
    FS.read (runTask envOffline fsStaged0 "d" rChk).fs
      (compressedPath "d" rChk) = none :=
  C10_staged_failure_silent envOffline fsStaged0 "d" rChk [0] (by decide)
    (by decide) (by decide) rfl (Or.inl ⟨rfl, by decide⟩)

/-- C3: a resource in the Absent state whose download completes under a
non-empty expected digest that does not match fails with the mismatch error,
the staged file is deleted, both the staged and committed compressed paths
end absent, the task performs no in-run retry (its operation trace is exactly
the download followed by the removal), and any later run enters the download
branch again. -/
theorem C3_absent_mismatch_fails (env : Env) (fs : FS) (dir : String)
    (r : Resource) (st : Nat) (clen : Option Nat)
    (chunks : List (Except String Bytes)) (buf : Bytes) (evs : List Event)
    (dops : List FsOp)
    (hcu : FS.read fs (compressedUncheckedPath dir r) = none)
    (hc : FS.has fs (compressedPath dir r) = false)
    (hhttp : env.http = HttpResponse.resp st clen chunks)
    (hst : isSuccess st = true)
    (hdl : dlLoop env.emit r.file_name (clen.getD 0)
        (compressedUncheckedPath dir r) chunks [] 0 = (buf, evs, dops, none))
    (hre : env.readErr (compressedUncheckedPath dir r) = none)
    (hcs : r.checksum_compressed ≠ "")
    (hmm : hexEncode (env.sha buf) ≠ r.checksum_compressed) :
    (runTask env fs dir r).err =
      some ("Compressed checksum mismatch for " ++ r.file_name) ∧
    (runTask env fs dir r).ops =
      (FsOp.create (compressedUncheckedPath dir r) :: dops) ++
        [FsOp.removeFile (compressedUncheckedPath dir r)] ∧
    FS.read (runTask env fs dir r).fs (compressedUncheckedPath dir r) = none ∧
    FS.read (runTask env fs dir r).fs (compressedPath dir r) = none ∧
    (∀ env2 : Env,
      phaseA env2 (runTask env fs dir r).fs dir r =
        downloadBranch env2 (runTask env fs dir r).fs (compressedPath dir r)
          (compressedUncheckedPath dir r) r) := by
  have hA := phaseA_download_mismatch env fs dir r st clen chunks buf evs dops
    hcu hc hhttp hst hdl hre hcs hmm
  have haerr : (phaseA env fs dir r).err =
      some ("Compressed checksum mismatch for " ++ r.file_name) := by
    rw [hA]
  have hrun : runTask env fs dir r = phaseA env fs dir r := by
    simp only [runTask, haerr]
  rw [hrun, hA]
  have hrcu : FS.read
      (FS.remove (FS.write fs (compressedUncheckedPath dir r) buf)
        (compressedUncheckedPath dir r)) (compressedUncheckedPath dir r) =
      none := FS.read_remove_self _ _
  have hrc : FS.read
      (FS.remove (FS.write fs (compressedUncheckedPath dir r) buf)
        (compressedUncheckedPath dir r)) (compressedPath dir r) = none := by
    rw [FS.read_remove_ne _ _ _ (compressedPath_ne_unchecked dir r),
      FS.read_write_ne _ _ _ _ (compressedPath_ne_unchecked dir r)]
    exact has_false_read_none fs _ hc
  refine ⟨rfl, rfl, hrcu, hrc, ?_⟩
  intro env2
  apply phaseA_absent env2 _ dir r hrcu
  rw [FS.has, hrc]
  rfl

/-- Witness for C3: an Absent resource served one wrong byte. -/
theorem C3_absent_mismatch_fails_witness :
    (runTask envServeNil [] "d" rChk).err =
      some ("Compressed checksum mismatch for " ++ rChk.file_name) ∧
    (runTask envServeNil [] "d" rChk).ops =
      (FsOp.create (compressedUncheckedPath "d" rChk) ::
        [FsOp.writeChunk (compressedUncheckedPath "d" rChk) [1]]) ++
        [FsOp.removeFile (compressedUncheckedPath "d" rChk)] ∧
    FS.read (runTask envServeNil [] "d" rChk).fs
      (compressedUncheckedPath "d" rChk) = none ∧
    FS.read (runTask envServeNil [] "d" rChk).fs
      (compressedPath "d" rChk) = none ∧
    (∀ env2 : Env,
      phaseA env2 (runTask envServeNil [] "d" rChk).fs "d" rChk =
        downloadBranch env2 (runTask envServeNil [] "d" rChk).fs
          (compressedPath "d" rChk) (compressedUncheckedPath "d" rChk) rChk) :=
  C3_absent_mismatch_fails envServeNil [] "d" rChk 200 (some 1)
    [Except.ok [1]] [1] [Event.downloadProgress "a" 1 1]
    [FsOp.writeChunk (compressedUncheckedPath "d" rChk) [1]]
    rfl rfl rfl (by decide) (by decide) rfl (by decide) (by decide)

theorem runTask_errA_none (env : Env) (fs : FS) (dir : String) (r : Resource)
    (ha : (phaseA env fs dir r).err = none) :
    runTask env fs dir r =
      ⟨(phaseB env (phaseA env fs dir r).fs dir r).fs,
       (phaseA env fs dir r).events ++
         (phaseB env (phaseA env fs dir r).fs dir r).events,
       (phaseA env fs dir r).ops ++
         (phaseB env (phaseA env fs dir r).fs dir r).ops,
       (phaseB env (phaseA env fs dir r).fs dir r).err⟩ := by
  simp only [runTask, ha]

theorem phaseB_read_preserve (env : Env) (fs : FS) (dir : String)
    (r : Resource) (p : String) (hpf : p ≠ finalPath r)
    (hpfu : p ≠ finalUncheckedPath r) :
    FS.read (phaseB env fs dir r).fs p = FS.read fs p := by
  cases hcomp : r.compressed with
  | false => rw [phaseB_flat env fs dir r hcomp]
  | true =>
    simp only [phaseB, hcomp, if_true]
    cases hfu : FS.read fs (finalUncheckedPath r) with
    | some b =>
      by_cases hds : r.checksum_decompressed = ""
      · simp [hds, commitRename, hfu, FS.read_write_ne, FS.read_remove_ne,
          hpf, hpfu]
      · cases hre : env.readErr (finalUncheckedPath r) with
        | some e =>
          rw [sha256_read_err env fs _ r.file_name b e hfu hre]
          simp [hds, FS.read_remove_ne, hpfu]
        | none =>
          rw [sha256_read_some env fs _ r.file_name b hfu hre]
          by_cases hmm : hexEncode (env.sha b) = r.checksum_decompressed
          · simp [hds, hmm, commitRename, hfu, FS.read_write_ne,
              FS.read_remove_ne, hpf, hpfu]
          · simp [hds, hmm, FS.read_remove_ne, hpfu]
    | none =>
      cases hf : FS.has fs (finalPath r) with
      | true => simp [hf]
      | false =>
        simp only [hf, Bool.false_eq_true, if_false]
        cases hcp : FS.read fs (compressedPath dir r) with
        | none => simp [decompressBranch, hcp]
        | some cb =>
          rcases hg : env.gunzip cb with ⟨ob, gerr⟩
          simp only [decompressBranch, hcp, hg]
          cases gerr with
          | some e => simp [FS.read_write_ne, hpfu]
          | none =>
            by_cases hds : r.checksum_decompressed = ""
            · simp [hds, commitRename, FS.read_write_self, FS.read_write_ne,
                FS.read_remove_ne, hpf, hpfu]
            · cases hre : env.readErr (finalUncheckedPath r) with
              | some e =>
                rw [sha256_read_err env _ _ r.file_name ob e
                  (FS.read_write_self fs _ ob) hre]
                simp [hds, FS.read_write_ne, FS.read_remove_ne, hpfu]
              | none =>
                rw [sha256_read_some env _ _ r.file_name ob
                  (FS.read_write_self fs _ ob) hre]
                by_cases hmm : hexEncode (env.sha ob) = r.checksum_decompressed
                · simp [hds, hmm, commitRename, FS.read_write_self,
                    FS.read_write_ne, FS.read_remove_ne, hpf, hpfu]
                · simp [hds, hmm, FS.read_write_ne, FS.read_remove_ne, hpfu]

/-- C1: for any resource (compressed or not) whose staged compressed file has
a wrong digest under a non-empty expected digest, and whose final paths are
disjoint from the compressed paths as the layout guarantees, the run that
finds the corrupt staged file deletes it (leaving both compressed paths
absent, with no in-run re-download per the no-in-run-retry rule), and the
next run re-downloads the resource — its trace contains the staged-file
creation — and commits to the compressed path the downloaded content, whose
digest equals the expected digest. -/
theorem C1_corruption_recovery (env1 env2 : Env) (fs : FS) (dir : String)
    (r : Resource) (b buf : Bytes) (st : Nat) (clen : Option Nat)
    (chunks : List (Except String Bytes)) (evs : List Event)
    (dops : List FsOp)
    (hcs : r.checksum_compressed ≠ "")
    (hcu : FS.read fs (compressedUncheckedPath dir r) = some b)
    (hc : FS.has fs (compressedPath dir r) = false)
    (hre1 : env1.readErr (compressedUncheckedPath dir r) = none)
    (hmm : hexEncode (env1.sha b) ≠ r.checksum_compressed)
    (hfc : finalPath r ≠ compressedPath dir r)
    (hfcu : finalPath r ≠ compressedUncheckedPath dir r)
    (hfuc : finalUncheckedPath r ≠ compressedPath dir r)
    (hfucu : finalUncheckedPath r ≠ compressedUncheckedPath dir r)
    (hhttp : env2.http = HttpResponse.resp st clen chunks)
    (hst : isSuccess st = true)
    (hdl : dlLoop env2.emit r.file_name (clen.getD 0)
        (compressedUncheckedPath dir r) chunks [] 0 = (buf, evs, dops, none))
    (hre2 : env2.readErr (compressedUncheckedPath dir r) = none)
    (hok : hexEncode (env2.sha buf) = r.checksum_compressed) :
    FS.read (runTask env1 fs dir r).fs (compressedUncheckedPath dir r) = none ∧
    FS.read (runTask env1 fs dir r).fs (compressedPath dir r) = none ∧
    FsOp.create (compressedUncheckedPath dir r) ∈
      (runTask env2 (runTask env1 fs dir r).fs dir r).ops ∧
    FS.read (runTask env2 (runTask env1 fs dir r).fs dir r).fs
      (compressedPath dir r) = some buf ∧
    hexEncode (env2.sha buf) = r.checksum_compressed := by
  have hA1 := phaseA_staged_mismatch env1 fs dir r b hcu hcs hre1 hmm
  have haerr1 : (phaseA env1 fs dir r).err = none := by rw [hA1]
  have hrun1 := runTask_errA_none env1 fs dir r haerr1
  have hcu1 : FS.read (runTask env1 fs dir r).fs
      (compressedUncheckedPath dir r) = none := by
    rw [hrun1]
    show FS.read (phaseB env1 (phaseA env1 fs dir r).fs dir r).fs
      (compressedUncheckedPath dir r) = none
    rw [phaseB_read_preserve env1 _ dir r _ (Ne.symm hfcu) (Ne.symm hfucu),
      hA1]
    exact FS.read_remove_self fs _
  have hc1 : FS.read (runTask env1 fs dir r).fs (compressedPath dir r) =
      none := by
    rw [hrun1]
    show FS.read (phaseB env1 (phaseA env1 fs dir r).fs dir r).fs
      (compressedPath dir r) = none
    rw [phaseB_read_preserve env1 _ dir r _ (Ne.symm hfc) (Ne.symm hfuc), hA1]
    show FS.read (FS.remove fs (compressedUncheckedPath dir r))
      (compressedPath dir r) = none
    rw [FS.read_remove_ne fs _ _ (compressedPath_ne_unchecked dir r)]
    exact has_false_read_none fs _ hc
  have hc1b : FS.has (runTask env1 fs dir r).fs (compressedPath dir r) =
      false := by
    rw [FS.has, hc1]
    rfl
  have hA2 := phaseA_download_ok env2 (runTask env1 fs dir r).fs dir r st clen
    chunks buf evs dops hcu1 hc1b hhttp hst hdl hre2 hcs hok
  have haerr2 : (phaseA env2 (runTask env1 fs dir r).fs dir r).err = none := by
    rw [hA2]
  have hrun2 := runTask_errA_none env2 (runTask env1 fs dir r).fs dir r haerr2
  refine ⟨hcu1, hc1, ?_, ?_, hok⟩
  · rw [hrun2]
    show FsOp.create (compressedUncheckedPath dir r) ∈
      (phaseA env2 (runTask env1 fs dir r).fs dir r).ops ++
        (phaseB env2 (phaseA env2 (runTask env1 fs dir r).fs dir r).fs dir r).ops
    apply List.mem_append_left
    rw [hA2]
    exact List.mem_append_left _ (List.mem_cons_self _ _)
  · rw [hrun2]
    show FS.read (phaseB env2 (phaseA env2 (runTask env1 fs dir r).fs dir r).fs
      dir r).fs (compressedPath dir r) = some buf
    rw [phaseB_read_preserve env2 _ dir r _ (Ne.symm hfc) (Ne.symm hfuc), hA2]
    exact FS.read_write_self _ _ buf

/-- Witness for C1 at a compressed (gzip) resource: the staged byte 0 fails
against digest 01; the next run downloads byte 1, which matches, and commits
it to the compressed path. -/
theorem C1_corruption_recovery_witness :
    FS.read (runTask envOffline fsStagedGz "d" rGz01).fs
      (compressedUncheckedPath "d" rGz01) = none ∧
    FS.read (runTask envOffline fsStagedGz "d" rGz01).fs
      (compressedPath "d" rGz01) = none ∧
    FsOp.create (compressedUncheckedPath "d" rGz01) ∈
      (runTask envServe1 (runTask envOffline fsStagedGz "d" rGz01).fs
        "d" rGz01).ops ∧
    FS.read (runTask envServe1 (runTask envOffline fsStagedGz "d" rGz01).fs
      "d" rGz01).fs (compressedPath "d" rGz01) = some [1] ∧
    hexEncode (envServe1.sha [1]) = rGz01.checksum_compressed :=
  C1_corruption_recovery envOffline envServe1 fsStagedGz "d" rGz01 [0] [1] 200
    (some 1) [Except.ok [1]] [Event.downloadProgress "a.gz" 1 1]
    [FsOp.writeChunk (compressedUncheckedPath "d" rGz01) [1]]
    (by decide) (by decide) (by decide) rfl (by decide) (by decide)
    (by decide) (by decide) (by decide) rfl (by decide) (by decide) rfl
    (by decide)

/-- C7 counterexample: the claim as stated is false.  A run that returns
success (Ok) is not enough to make the next run skip: starting from a
corrupt staged compressed file, the first run deletes it and still reports
success, and the second run performs a download (its operation trace
contains a create of the staged path). -/
theorem C7_counterexample :
    (runTask envServeNil fsStaged0 "d" rChk).err = none ∧
    FsOp.create (compressedUncheckedPath "d" rChk) ∈
      (runTask envServeNil (runTask envServeNil fsStaged0 "d" rChk).fs
        "d" rChk).ops := by
  decide

/-- C7 (amended): a second run immediately after a run that left every
resource Committed (final files present, nothing staged) performs zero
downloads and zero decompressions: every task runs zero filesystem
operations, emits nothing, succeeds, and leaves the filesystem unchanged;
the orchestrator returns Ok. -/
theorem C7_second_run_skips (dir : String)
    (inputs : List (Env × FS × Resource))
    (h : ∀ t ∈ inputs, committedState t.2.1 dir t.2.2 = true) :
    download_resources dir inputs = Except.ok () ∧
    ∀ t ∈ inputs, runTask t.1 t.2.1 dir t.2.2 = ⟨t.2.1, [], [], none⟩ := by
  have h2 : ∀ t ∈ inputs, runTask t.1 t.2.1 dir t.2.2 = ⟨t.2.1, [], [], none⟩ :=
    fun t ht => runTask_committed t.1 t.2.1 dir t.2.2 (h t ht)
  refine ⟨?_, h2⟩
  unfold download_resources
  rw [aggregateResults_ok_iff]
  intro x hx
  rw [List.mem_map] at hx
  obtain ⟨t, ht, rfl⟩ := hx
  rw [taskResult_ok_iff, h2 t ht]

/-- Witness for C7 (amended) at a single committed resource. -/
theorem C7_second_run_skips_witness :
    download_resources "d" [(envOffline, fsCommitted, rPlain)] = Except.ok () ∧
    ∀ t ∈ [(envOffline, fsCommitted, rPlain)],
      runTask t.1 t.2.1 "d" t.2.2 = ⟨t.2.1, [], [], none⟩ :=
  C7_second_run_skips "d" [(envOffline, fsCommitted, rPlain)]
    (by intro t ht; rw [List.mem_singleton] at ht; subst ht; decide)

/-- C6: the orchestrator aggregates the awaited results of every
per-resource task in catalog order; it returns Ok exactly when every task
succeeded, and if some task failed while all earlier tasks succeeded, it
returns that first error even though later tasks may have committed. -/
theorem C6_awaits_and_first_error (dir : String)
    (inputs : List (Env × FS × Resource)) :
    (download_resources dir inputs = Except.ok () ↔
      ∀ t ∈ inputs, (runTask t.1 t.2.1 dir t.2.2).err = none) ∧
    ∀ (i : Nat) (hi : i < inputs.length) (e : String),
      (runTask (inputs.get ⟨i, hi⟩).1 (inputs.get ⟨i, hi⟩).2.1 dir
        (inputs.get ⟨i, hi⟩).2.2).err = some e →
      (∀ (j : Nat) (hj : j < inputs.length), j < i →
        (runTask (inputs.get ⟨j, hj⟩).1 (inputs.get ⟨j, hj⟩).2.1 dir
          (inputs.get ⟨j, hj⟩).2.2).err = none) →
      download_resources dir inputs = Except.error e := by
  constructor
  · unfold download_resources
    rw [aggregateResults_ok_iff]
    constructor
    · intro h t ht
      have hm := h (taskResult t.1 t.2.1 dir t.2.2)
        (List.mem_map_of_mem _ ht)
      exact (taskResult_ok_iff _ _ _ _).mp hm
    · intro h x hx
      rw [List.mem_map] at hx
      obtain ⟨t, ht, rfl⟩ := hx
      exact (taskResult_ok_iff _ _ _ _).mpr (h t ht)
  · intro i hi e hget hprev
    unfold download_resources
    have hi2 : i < (inputs.map fun t => taskResult t.1 t.2.1 dir t.2.2).length := by
      simpa using hi
    apply aggregateResults_first_err _ i hi2 e
    · have hg : (inputs.map fun t => taskResult t.1 t.2.1 dir t.2.2).get ⟨i, hi2⟩ =
          taskResult (inputs.get ⟨i, hi⟩).1 (inputs.get ⟨i, hi⟩).2.1 dir
            (inputs.get ⟨i, hi⟩).2.2 := by
        simp
      rw [hg]
      exact taskResult_err _ _ _ _ e hget
    · intro j hj hji
      have hj2 : j < inputs.length := by simpa using hj
      have hg : (inputs.map fun t => taskResult t.1 t.2.1 dir t.2.2).get ⟨j, hj⟩ =
          taskResult (inputs.get ⟨j, hj2⟩).1 (inputs.get ⟨j, hj2⟩).2.1 dir
            (inputs.get ⟨j, hj2⟩).2.2 := by
        simp
      rw [hg, taskResult_ok_iff]
      exact hprev j hj2 hji

/-- Witness for C6: a one-element catalog whose task succeeds. -/
theorem C6_awaits_and_first_error_witness :
    download_resources "d" [(envOffline, fsCommitted, rPlain)] =
      Except.ok () :=
  (C6_awaits_and_first_error "d" [(envOffline, fsCommitted, rPlain)]).1.mpr
    (by intro t ht; rw [List.mem_singleton] at ht; subst ht; decide)

/-- C9: hashing a readable file reads it in fixed-size 8 KiB chunks (every
chunk but the last has length 8192 and the chunks concatenate to the file),
emits one progress event per chunk carrying the cumulative byte count so far
and the total file size, returns the digest of the whole file as a lowercase
hex string, and propagates a read error or a missing file as an error. -/
theorem C9_sha256_streaming (env : Env) (fs : FS) (path fname : String) :
    (∀ bs : Bytes, FS.read fs path = some bs → env.readErr path = none →
      sha256_of_file_with_progress env fs path fname =
        (Except.ok (hexEncode (env.sha bs)),
         (List.range (chunkBytes bs).length).map fun i =>
           Event.checksumProgress fname
             (((chunkBytes bs).take (i + 1)).map List.length).sum bs.length) ∧
      isLowerHex (hexEncode (env.sha bs)) = true ∧
      (chunkBytes bs).flatten = bs ∧
      (∀ (i : Nat) (h : i + 1 < (chunkBytes bs).length),
        ((chunkBytes bs).get ⟨i, Nat.lt_of_succ_lt h⟩).length = 8192)) ∧
    (∀ (bs : Bytes) (e : String), FS.read fs path = some bs →
      env.readErr path = some e →
      sha256_of_file_with_progress env fs path fname = (Except.error e, [])) ∧
    (FS.read fs path = none →
      sha256_of_file_with_progress env fs path fname =
        (Except.error ("open failed: " ++ path), [])) := by
  refine ⟨?_, ?_, ?_⟩
  · intro bs h1 h2
    refine ⟨?_, isLowerHex_hexEncode _, chunkBytes_flatten bs,
      chunkBytes_full_sizes bs⟩
    rw [sha256_read_some env fs path fname bs h1 h2, hashChunksAcc_snd]
    simp
  · intro bs e h1 h2
    exact sha256_read_err env fs path fname bs e h1 h2
  · intro h1
    simp [sha256_of_file_with_progress, h1]

/-- Witness for C9: hashing a one-byte file. -/
theorem C9_sha256_streaming_witness :
    sha256_of_file_with_progress envOffline fsP "p" "a" =
      (Except.ok (hexEncode (envOffline.sha [7])),
       (List.range (chunkBytes ([7] : Bytes)).length).map fun i =>
         Event.checksumProgress "a"
           (((chunkBytes ([7] : Bytes)).take (i + 1)).map List.length).sum
           (List.length ([7] : Bytes))) :=
  ((C9_sha256_streaming envOffline fsP "p" "a").1 [7] rfl rfl).1

/-- C8: an empty expected digest commits the artifact by rename without its
content ever being hashed, in all four arms: the compressed Staged branch,
the fresh-download branch, the decompressed Staged branch, and the fresh
decompression branch; in each arm the emitted events contain no
checksum-progress event. -/
theorem C8_empty_digest_no_hash (env : Env) (fs : FS) (dir : String)
    (r : Resource) :
    (∀ b : Bytes, r.checksum_compressed = "" →
      FS.read fs (compressedUncheckedPath dir r) = some b →
      phaseA env fs dir r =
        ⟨FS.write (FS.remove fs (compressedUncheckedPath dir r))
           (compressedPath dir r) b, [],
         [FsOp.renameFile (compressedUncheckedPath dir r)
           (compressedPath dir r) b], none⟩) ∧
    (∀ (st : Nat) (clen : Option Nat) (chunks : List (Except String Bytes))
       (buf : Bytes) (evs : List Event) (dops : List FsOp),
      r.checksum_compressed = "" →
      FS.read fs (compressedUncheckedPath dir r) = none →
      FS.has fs (compressedPath dir r) = false →
      env.http = HttpResponse.resp st clen chunks →
      isSuccess st = true →
      dlLoop env.emit r.file_name (clen.getD 0)
        (compressedUncheckedPath dir r) chunks [] 0 = (buf, evs, dops, none) →
      phaseA env fs dir r =
        ⟨FS.write
           (FS.remove (FS.write fs (compressedUncheckedPath dir r) buf)
             (compressedUncheckedPath dir r))
           (compressedPath dir r) buf, evs,
         (FsOp.create (compressedUncheckedPath dir r) :: dops) ++
           [FsOp.renameFile (compressedUncheckedPath dir r)
             (compressedPath dir r) buf], none⟩ ∧
      ∀ ev ∈ evs, Event.isChecksum ev = false) ∧
    (∀ b : Bytes, r.compressed = true → r.checksum_decompressed = "" →
      FS.read fs (finalUncheckedPath r) = some b →
      phaseB env fs dir r =
        ⟨FS.write (FS.remove fs (finalUncheckedPath r)) (finalPath r) b, [],
         [FsOp.renameFile (finalUncheckedPath r) (finalPath r) b], none⟩) ∧
    (∀ cb ob : Bytes, r.compressed = true → r.checksum_decompressed = "" →
      FS.read fs (finalUncheckedPath r) = none →
      FS.has fs (finalPath r) = false →
      FS.read fs (compressedPath dir r) = some cb →
      env.gunzip cb = (ob, none) →
      phaseB env fs dir r =
        ⟨FS.write (FS.remove (FS.write fs (finalUncheckedPath r) ob)
            (finalUncheckedPath r)) (finalPath r) ob,
         cumEvents (fun a b2 => Event.decompressionProgress r.file_name a b2)
           cb.length (chunkBytes cb) 0,
         [FsOp.create (finalUncheckedPath r),
          FsOp.writeChunk (finalUncheckedPath r) ob,
          FsOp.renameFile (finalUncheckedPath r) (finalPath r) ob], none⟩ ∧
      ∀ ev ∈ (phaseB env fs dir r).events, Event.isChecksum ev = false) := by
  refine ⟨?_, ?_, ?_, ?_⟩
  · intro b hcs hcu
    exact phaseA_staged_skipHash env fs dir r b hcu hcs
  · intro st clen chunks buf evs dops hcs hcu hc hhttp hst hdl
    refine ⟨phaseA_download_skipHash env fs dir r st clen chunks buf evs dops
      hcu hc hhttp hst hdl hcs, ?_⟩
    intro ev hev
    obtain ⟨a, b, rfl⟩ :=
      dlLoop_events_download env.emit r.file_name (clen.getD 0)
        (compressedUncheckedPath dir r) chunks [] 0 ev (by rw [hdl]; exact hev)
    rfl
  · intro b hcomp hds hfu
    exact phaseB_staged_skipHash env fs dir r b hcomp hfu hds
  · intro cb ob hcomp hds hfu hf hcp hg
    have hB := phaseB_decompress_skipHash env fs dir r cb ob hcomp hfu hf hcp
      hg hds
    refine ⟨hB, ?_⟩
    intro ev hev
    rw [hB] at hev
    obtain ⟨a, rfl⟩ := cumEvents_mem _ _ _ _ ev hev
    rfl

/-- Witness for C8 at the compressed Staged arm with an empty digest. -/
theorem C8_empty_digest_no_hash_witness :
    phaseA envOffline fsStaged0 "d" rPlain =
      ⟨FS.write (FS.remove fsStaged0 (compressedUncheckedPath "d" rPlain))
         (compressedPath "d" rPlain) [0], [],
       [FsOp.renameFile (compressedUncheckedPath "d" rPlain)
         (compressedPath "d" rPlain) [0]], none⟩ :=
  (C8_empty_digest_no_hash envOffline fsStaged0 "d" rPlain).1 [0] rfl rfl

theorem dlLoop_congr (e1 e2 : Event → Option String) (fname : String)
    (total : Nat) (cu : String)
    (h : ∀ a b : Nat, e1 (Event.downloadProgress fname a b) =
      e2 (Event.downloadProgress fname a b)) :
    ∀ (chunks : List (Except String Bytes)) (buf : Bytes) (d : Nat),
      dlLoop e1 fname total cu chunks buf d =
        dlLoop e2 fname total cu chunks buf d := by
  intro chunks
  induction chunks with
  | nil => intro buf d; rfl
  | cons ch rest ih =>
    intro buf d
    cases ch with
    | error e => rfl
    | ok c =>
      simp only [dlLoop]
      rw [← h (d + c.length) total]
      cases e1 (Event.downloadProgress fname (d + c.length) total) with
      | some e => rfl
      | none => rw [ih]

/-- C5 counterexample: the claim as stated is false.  The outcome of a task
is not independent of the progress sink: with the download-progress delivery
failing, the fresh-download branch fails the resource, while the identical
environment with a working sink succeeds. -/
theorem C5_counterexample :
    (runTask envEmitFail [] "d" rPlain).err =
      some "Failed to emit download progress: sink down" ∧
    (runTask envServe1 [] "d" rPlain).err = none := by
  decide

/-- C5 (amended): progress delivery is best-effort for checksum and
decompression events — the outcome of a task (filesystem, operations, events
and error alike) is unchanged under any change of the progress sink's
behavior, provided the sink's answers on the download-progress events of
this resource are unchanged; a failing download-progress delivery is the one
exception, as the counterexample shows. -/
theorem C5_progress_sink_amended (sha : Bytes → Bytes) (http : HttpResponse)
    (gunzip : Bytes → Bytes × Option String)
    (readErr : String → Option String) (e1 e2 : Event → Option String)
    (fs : FS) (dir : String) (r : Resource)
    (h : ∀ a b : Nat, e1 (Event.downloadProgress r.file_name a b) =
      e2 (Event.downloadProgress r.file_name a b)) :
    runTask ⟨sha, http, gunzip, e1, readErr⟩ fs dir r =
      runTask ⟨sha, http, gunzip, e2, readErr⟩ fs dir r := by
  have hsha : ∀ (fs2 : FS) (p n : String),
      sha256_of_file_with_progress ⟨sha, http, gunzip, e1, readErr⟩ fs2 p n =
        sha256_of_file_with_progress ⟨sha, http, gunzip, e2, readErr⟩ fs2 p n :=
    fun _ _ _ => rfl
  have hdl := dlLoop_congr e1 e2 r.file_name
  have hA : phaseA ⟨sha, http, gunzip, e1, readErr⟩ fs dir r =
      phaseA ⟨sha, http, gunzip, e2, readErr⟩ fs dir r := by
    dsimp only [phaseA, downloadBranch]
    cases hr : FS.read fs (compressedUncheckedPath dir r) with
    | some b =>
      rw [hsha]
    | none =>
      cases hc : FS.has fs (compressedPath dir r) with
      | true => rfl
      | false =>
        cases http with
        | sendErr e => rfl
        | resp st clen chunks =>
          cases hst : isSuccess st with
          | false => simp [hst]
          | true =>
            simp only [hst, if_true]
            rw [hdl (clen.getD 0) (compressedUncheckedPath dir r) h chunks [] 0]
            rw [hsha]
  have hB : ∀ fs2 : FS,
      phaseB ⟨sha, http, gunzip, e1, readErr⟩ fs2 dir r =
        phaseB ⟨sha, http, gunzip, e2, readErr⟩ fs2 dir r :=
    fun _ => rfl
  simp only [runTask, hA, hB]

/-- Witness for C5 (amended): two sinks that differ on checksum-progress
events (one failing them, one not) yield identical task outcomes. -/
theorem C5_progress_sink_amended_witness :
    runTask ⟨shaId, HttpResponse.resp 200 (some 1) [Except.ok [1]],
        fun b => (b, none), fun _ => none, fun _ => none⟩ [] "d" rChk01 =
      runTask ⟨shaId, HttpResponse.resp 200 (some 1) [Except.ok [1]],
        fun b => (b, none),
        fun ev =>
          match ev with
          | Event.checksumProgress _ _ _ => some "checksum sink down"
          | _ => none,
        fun _ => none⟩ [] "d" rChk01 :=
  C5_progress_sink_amended shaId (HttpResponse.resp 200 (some 1) [Except.ok [1]])
    (fun b => (b, none)) (fun _ => none) (fun _ => none)
    (fun ev =>
      match ev with
      | Event.checksumProgress _ _ _ => some "checksum sink down"
      | _ => none)
    [] "d" rChk01 (fun _ _ => rfl)

theorem phaseA_staged_ok (env : Env) (fs : FS) (dir : String) (r : Resource)
    (b : Bytes)
    (hcu : FS.read fs (compressedUncheckedPath dir r) = some b)
    (hcs : r.checksum_compressed ≠ "")
    (hre : env.readErr (compressedUncheckedPath dir r) = none)
    (hok : hexEncode (env.sha b) = r.checksum_compressed) :
    phaseA env fs dir r =
      ⟨FS.write (FS.remove fs (compressedUncheckedPath dir r))
         (compressedPath dir r) b,
       (hashChunksAcc r.file_name b.length (chunkBytes b) [] 0).2,
       [FsOp.renameFile (compressedUncheckedPath dir r)
         (compressedPath dir r) b], none⟩ := by
  simp only [phaseA, hcu]
  rw [sha256_read_some env fs _ r.file_name b hcu hre]
  simp [hcs, hok, commitRename, hcu]

theorem commitRename_ops_all (P : FsOp → Bool) (fs : FS) (src dst : String)
    (evs : List Event) (ops0 : List FsOp)
    (hops : ops0.all P = true)
    (hr : ∀ b, FS.read fs src = some b → P (FsOp.renameFile src dst b) = true) :
    ((commitRename fs src dst evs ops0).ops.all P) = true := by
  cases h : FS.read fs src with
  | none => simp [commitRename, h, hops]
  | some b => simp [commitRename, h, List.all_append, hops, hr b h]

theorem dlLoop_ops_all (emit : Event → Option String) (fname : String)
    (total : Nat) (cu : String) (chunks : List (Except String Bytes))
    (buf : Bytes) (d : Nat) (P : FsOp → Bool)
    (h : ∀ b, P (FsOp.writeChunk cu b) = true) :
    ((dlLoop emit fname total cu chunks buf d).2.2.1.all P) = true := by
  rw [List.all_eq_true]
  intro op hop
  obtain ⟨b, rfl⟩ := dlLoop_ops_writes emit fname total cu chunks buf d op hop
  exact h b

theorem downloadBranch_ops_all (env : Env) (fs : FS) (dir : String)
    (r : Resource) :
    ((downloadBranch env fs (compressedPath dir r)
      (compressedUncheckedPath dir r) r).ops.all (opSafe env dir r)) = true := by
  cases hhttp : env.http with
  | sendErr e => simp [downloadBranch, hhttp]
  | resp st clen chunks =>
    cases hst : isSuccess st with
    | false => simp [downloadBranch, hhttp, hst]
    | true =>
      rcases hdl : dlLoop env.emit r.file_name (clen.getD 0)
        (compressedUncheckedPath dir r) chunks [] 0 with ⟨buf, evs, dops, derr⟩
      have hdops : dops.all (opSafe env dir r) = true := by
        have hall := dlLoop_ops_all env.emit r.file_name (clen.getD 0)
          (compressedUncheckedPath dir r) chunks [] 0 (opSafe env dir r)
          (fun b => by simp [opSafe])
        rw [hdl] at hall
        exact hall
      simp only [downloadBranch, hhttp, hst, if_true, hdl]
      cases derr with
      | some e => simp [opSafe, hdops]
      | none =>
        by_cases hcs : r.checksum_compressed = ""
        · simp only [hcs, ne_eq, not_true_eq_false, if_false]
          apply commitRename_ops_all
          · simp [opSafe, hdops]
          · intro b hb
            simp [opSafe, hcs]
        · cases hre : env.readErr (compressedUncheckedPath dir r) with
          | some e =>
            rw [sha256_read_err env _ _ r.file_name buf e
              (FS.read_write_self fs _ buf) hre]
            simp [hcs, opSafe, hdops]
          | none =>
            rw [sha256_read_some env _ _ r.file_name buf
              (FS.read_write_self fs _ buf) hre]
            by_cases hmm : hexEncode (env.sha buf) = r.checksum_compressed
            · simp only [hcs, ne_eq, not_false_eq_true, if_true, hmm,
                not_true_eq_false, if_false]
              apply commitRename_ops_all
              · simp [opSafe, hdops]
              · intro b hb
                rw [FS.read_write_self] at hb
                cases hb
                simp [opSafe, hmm]
            · simp [hcs, hmm, opSafe, hdops]

theorem phaseA_ops_all (env : Env) (fs : FS) (dir : String) (r : Resource) :
    ((phaseA env fs dir r).ops.all (opSafe env dir r)) = true := by
  cases hcu : FS.read fs (compressedUncheckedPath dir r) with
  | some b =>
    by_cases hcs : r.checksum_compressed = ""
    · rw [phaseA_staged_skipHash env fs dir r b hcu hcs]
      simp [opSafe, hcs]
    · cases hre : env.readErr (compressedUncheckedPath dir r) with
      | some e =>
        rw [phaseA_staged_readErr env fs dir r b e hcu hcs hre]
        simp [opSafe]
      | none =>
        by_cases hmm : hexEncode (env.sha b) = r.checksum_compressed
        · rw [phaseA_staged_ok env fs dir r b hcu hcs hre hmm]
          simp [opSafe, hmm]
        · rw [phaseA_staged_mismatch env fs dir r b hcu hcs hre hmm]
          simp [opSafe]
  | none =>
    cases hc : FS.has fs (compressedPath dir r) with
    | true =>
      rw [phaseA_skip env fs dir r hcu hc]
      rfl
    | false =>
      rw [phaseA_absent env fs dir r hcu hc]
      exact downloadBranch_ops_all env fs dir r

theorem phaseB_ops_all (env : Env) (fs : FS) (dir : String) (r : Resource) :
    ((phaseB env fs dir r).ops.all (opSafe env dir r)) = true := by
  cases hcomp : r.compressed with
  | false =>
    rw [phaseB_flat env fs dir r hcomp]
    rfl
  | true =>
    simp only [phaseB, hcomp, if_true]
    cases hfu : FS.read fs (finalUncheckedPath r) with
    | some b =>
      by_cases hds : r.checksum_decompressed = ""
      · simp only [hds, ne_eq, not_true_eq_false, if_false]
        apply commitRename_ops_all
        · rfl
        · intro b2 hb2
          simp [opSafe, hds]
      · cases hre : env.readErr (finalUncheckedPath r) with
        | some e =>
          rw [sha256_read_err env fs _ r.file_name b e hfu hre]
          simp [hds, opSafe]
        | none =>
          rw [sha256_read_some env fs _ r.file_name b hfu hre]
          by_cases hmm : hexEncode (env.sha b) = r.checksum_decompressed
          · simp only [hds, ne_eq, not_false_eq_true, if_true, hmm,
              not_true_eq_false, if_false]
            apply commitRename_ops_all
            · rfl
            · intro b2 hb2
              rw [hfu] at hb2
              cases hb2
              simp [opSafe, hmm]
          · simp [hds, hmm, opSafe]
    | none =>
      cases hf : FS.has fs (finalPath r) with
      | true => simp [hf]
      | false =>
        simp only [hf, Bool.false_eq_true, if_false]
        cases hcp : FS.read fs (compressedPath dir r) with
        | none => simp [decompressBranch, hcp]
        | some cb =>
          rcases hg : env.gunzip cb with ⟨ob, gerr⟩
          simp only [decompressBranch, hcp, hg]
          cases gerr with
          | some e => simp [opSafe]
          | none =>
            by_cases hds : r.checksum_decompressed = ""
            · simp only [hds, ne_eq, not_true_eq_false, if_false]
              apply commitRename_ops_all
              · simp [opSafe]
              · intro b2 hb2
                simp [opSafe, hds]
            · cases hre : env.readErr (finalUncheckedPath r) with
              | some e =>
                rw [sha256_read_err env _ _ r.file_name ob e
                  (FS.read_write_self fs _ ob) hre]
                simp [hds, opSafe]
              | none =>
                rw [sha256_read_some env _ _ r.file_name ob
                  (FS.read_write_self fs _ ob) hre]
                by_cases hmm : hexEncode (env.sha ob) = r.checksum_decompressed
                · simp only [hds, ne_eq, not_false_eq_true, if_true, hmm,
                    not_true_eq_false, if_false]
                  apply commitRename_ops_all
                  · simp [opSafe]
                  · intro b2 hb2
                    rw [FS.read_write_self] at hb2
                    cases hb2
                    simp [opSafe, hmm]
                · simp [hds, hmm, opSafe]

/-- C2: every filesystem operation a task performs is commit-safe: all
creates, chunk writes and removals touch only the two reserved staged
`_unchecked` paths, and the only operations that ever produce a final
committed path are atomic renames of the corresponding staged file whose
recorded content matches the expected digest unless that digest is empty.
An observer polling the final paths therefore sees only the prior state or
a fully verified file. -/
theorem C2_commit_atomicity (env : Env) (fs : FS) (dir : String)
    (r : Resource) :
    ((runTask env fs dir r).ops.all (opSafe env dir r)) = true := by
  have ha := phaseA_ops_all env fs dir r
  cases herr : (phaseA env fs dir r).err with
  | some e =>
    simp only [runTask, herr]
    exact ha
  | none =>
    have hb := phaseB_ops_all env (phaseA env fs dir r).fs dir r
    simp only [runTask, herr]
    simp [List.all_append, ha, hb]
